import Mathlib

/-!
Verification of the prox process supervisor against its specification.

The definitions below are shallow embeddings of the Go source of the
repository (src/executor.go, src/output.go, src/server.go, src/env.go and
the unnamed parts).  Pure functions become Lean functions; channel draining
and the lifecycle of mutable objects become explicit state passing; Go
errors become an explicit error type; calls into the Go standard library
(json.Unmarshal, json.MarshalIndent) are passed as explicit arguments that
stand for the library call's outcome on the given input.
-/

namespace Prox

/-- Model of Go error values as they flow through the supervisor: the
context.Canceled sentinel, a plain error message, and an error produced by
errors.Wrap of github.com/pkg/errors (wrap message plus cause). -/
inductive GoError where
  | ctxCanceled : GoError
  | errMsg : String → GoError
  | wrapped : String → GoError → GoError
deriving DecidableEq, Repr

/-- errors.Wrap from github.com/pkg/errors: wrapping nil returns nil,
wrapping a non-nil error annotates it with the message. -/
def errorsWrap (msg : String) : Option GoError → Option GoError
  | none => none
  | some e => some (.wrapped msg e)

/-- Termination status of a child process (src/executor.go). -/
inductive status where
  | statusSuccess
  | statusError
  | statusInterrupted
deriving DecidableEq, Repr

/-- A termination message posted on the Executor's channel
(src/executor.go): the process (identified by its name), the status it
finished with and the error it reported. -/
structure message where
  p : String
  status : status
  err : Option GoError
deriving DecidableEq, Repr

/-- The classification of a child's Run result performed by Executor.run
(src/executor.go, lines 248-255): context.Canceled means interrupted, any
other non-nil error means failure, nil means success. -/
def classify (err : Option GoError) : status :=
  if err = some .ctxCanceled then .statusInterrupted
  else if err ≠ none then .statusError
  else .statusSuccess

/-- The drain loop of Executor.waitForAll (src/executor.go, lines 261-285),
instrumented for verification: it folds over the received termination
messages carrying firstErr exactly as the Go loop does, and also records,
per message, whether interruptAll was invoked while handling it. -/
def drain (firstErr : Option GoError) : List message → Option GoError × List Bool
  | [] => (firstErr, [])
  | m :: ms =>
    if m.status = .statusError then
      let fe := if firstErr = none then m.err else firstErr
      let r := drain fe ms
      (r.1, true :: r.2)
    else
      let r := drain firstErr ms
      (r.1, false :: r.2)

/-- The error returned by Executor.waitForAll after draining all messages:
errors.Wrap(firstErr, "first error"). -/
def waitForAllErr (ms : List message) : Option GoError :=
  errorsWrap "first error" (drain none ms).1

/-- Per-message interruptAll invocation flags of the drain loop. -/
def interruptCalls (ms : List message) : List Bool := (drain none ms).2

/-- The first message with Failed status among the drained messages. -/
def firstFailed (ms : List message) : Option message :=
  (ms.filter (fun m => decide (m.status = .statusError))).head?

/-- The "signal: " prefix test of systemProcess.wait, done on the text of
the error returned by cmd.Wait (src/unnamed/part_030, line 198). -/
def startsWithSignal (s : String) : Bool :=
  "signal: ".toList.isPrefixOf s.toList

/-- The result systemProcess.wait reports to its caller
(src/unnamed/part_030, lines 196-240): if the context is done first, every
path of that branch returns ctx.Err() (context.Canceled); otherwise the
error from cmd.Wait is returned, except that an error whose text begins
with "signal: " is replaced by nil. -/
def waitResult (ctxDoneFirst : Bool) (waitErr : Option String) : Option GoError :=
  if ctxDoneFirst then some .ctxCanceled
  else match waitErr with
    | none => none
    | some s => if startsWithSignal s then none else some (.errMsg s)

theorem drain_calls (fe : Option GoError) (ms : List message) :
    (drain fe ms).2 = ms.map (fun m => decide (m.status = .statusError)) := by
  induction ms generalizing fe with
  | nil => rfl
  | cons m ms ih =>
    by_cases h : m.status = .statusError <;> simp [drain, h, ih]

theorem drain_some (e : GoError) (ms : List message) :
    (drain (some e) ms).1 = some e := by
  induction ms with
  | nil => rfl
  | cons m ms ih =>
    by_cases h : m.status = .statusError <;> simp [drain, h, ih]

theorem drain_none_eq (ms : List message)
    (hwf : ∀ m ∈ ms, m.status = .statusError → m.err ≠ none) :
    (drain none ms).1 = (firstFailed ms).bind message.err := by
  induction ms with
  | nil => rfl
  | cons m ms ih =>
    by_cases h : m.status = .statusError
    · have hne : m.err ≠ none := hwf m (by simp) h
      obtain ⟨e, he⟩ := Option.ne_none_iff_exists'.mp hne
      simp only [drain, if_pos h, firstFailed, List.filter_cons,
        decide_eq_true_eq, h, if_pos trivial]
      simp [he, drain_some]
    · simp only [drain, if_neg h, firstFailed, List.filter_cons]
      rw [ih (fun x hx hs => hwf x (List.mem_cons_of_mem m hx) hs)]
      simp [firstFailed, h]

/-- C1: in the drain loop of Executor.waitForAll, root cancellation
(interruptAll) is invoked exactly on messages with Failed status; only the
error of the first Failed message is retained; and the drain loop returns a
non-nil error iff at least one child reported Failed, in which case the
returned error wraps that first failure.  The hypothesis — a Failed message
always carries a non-nil error — is guaranteed by the classification in
Executor.run, see classify_statusError_err below. -/
theorem c1_waitForAll (ms : List message)
    (hwf : ∀ m ∈ ms, m.status = .statusError → m.err ≠ none) :
    interruptCalls ms = ms.map (fun m => decide (m.status = .statusError))
    ∧ (drain none ms).1 = (firstFailed ms).bind message.err
    ∧ (waitForAllErr ms ≠ none ↔ ∃ m ∈ ms, m.status = .statusError)
    ∧ (∀ m e, firstFailed ms = some m → m.err = some e →
        waitForAllErr ms = some (.wrapped "first error" e)) := by
  refine ⟨drain_calls none ms, drain_none_eq ms hwf, ?_, ?_⟩
  · rw [waitForAllErr, drain_none_eq ms hwf]
    constructor
    · intro hne
      by_contra hnone
      push_neg at hnone
      have : firstFailed ms = none := by
        simp only [firstFailed, List.head?_eq_none_iff, List.filter_eq_nil_iff,
          decide_eq_true_eq]
        exact hnone
      simp [this, errorsWrap] at hne
    · rintro ⟨m, hm, hs⟩ h
      have hmem : m ∈ ms.filter (fun m => decide (m.status = .statusError)) :=
        List.mem_filter.mpr ⟨hm, by simpa using hs⟩
      have hne : ms.filter (fun m => decide (m.status = .statusError)) ≠ [] :=
        List.ne_nil_of_mem hmem
      obtain ⟨m0, ms0, heq⟩ := List.exists_cons_of_ne_nil hne
      have hm0 : firstFailed ms = some m0 := by simp [firstFailed, heq]
      have hm0s : m0.status = .statusError := by
        have := List.mem_filter.mp (heq ▸ List.mem_cons_self m0 ms0)
        simpa using this.2
      have hm0mem : m0 ∈ ms := by
        have := List.mem_filter.mp (heq ▸ List.mem_cons_self m0 ms0)
        exact this.1
      obtain ⟨e, he⟩ := Option.ne_none_iff_exists'.mp (hwf m0 hm0mem hm0s)
      simp [hm0, he, errorsWrap] at h
  · intro m e hm he
    rw [waitForAllErr, drain_none_eq ms hwf, hm]
    simp [he, errorsWrap]

/-- A message classified by Executor.run has Failed status only when the
child's error was non-nil, which discharges the hypothesis of
c1_waitForAll for every message the supervisor actually drains. -/
theorem classify_statusError_err (err : Option GoError) :
    classify err = .statusError → err ≠ none := by
  intro h hnone
  simp [classify, hnone] at h

/-- Concrete drain sequence used as the witness for C1. -/
def ms0 : List message :=
  [⟨"a", .statusSuccess, none⟩,
   ⟨"b", .statusError, some (.errMsg "boom")⟩,
   ⟨"c", .statusInterrupted, some .ctxCanceled⟩,
   ⟨"d", .statusError, some (.errMsg "later")⟩]

theorem c1_waitForAll_witness :
    (∀ m ∈ ms0, m.status = .statusError → m.err ≠ none)
    ∧ (interruptCalls ms0 = ms0.map (fun m => decide (m.status = .statusError))
      ∧ (drain none ms0).1 = (firstFailed ms0).bind message.err
      ∧ (waitForAllErr ms0 ≠ none ↔ ∃ m ∈ ms0, m.status = .statusError)
      ∧ (∀ m e, firstFailed ms0 = some m → m.err = some e →
          waitForAllErr ms0 = some (.wrapped "first error" e))) :=
  ⟨by decide, c1_waitForAll ms0 (by decide)⟩

/-- C5 counterexample: a child whose cmd.Wait result is the error
"signal: killed", with the cancellation scope not yet done, is classified
statusSuccess by Executor.run — not statusInterrupted as the claim states
(systemProcess.wait discards the error, so the nil result falls through to
the success case of the classification). -/
theorem c5_counterexample :
    classify (waitResult false (some "signal: killed")) = .statusSuccess
    ∧ status.statusSuccess ≠ .statusInterrupted := by
  constructor
  · decide
  · decide

/-- C5 (amended): a wait result whose error text begins with "signal: ",
with the cancellation scope not yet done, is reported as nil by
systemProcess.wait and therefore classified Succeeded (not Failed, and not
Interrupted either); consequently the event does not trigger interruptAll
and does not become the Run's returned error. -/
theorem c5_amended (s : String) (h : startsWithSignal s = true) :
    classify (waitResult false (some s)) = .statusSuccess
    ∧ classify (waitResult false (some s)) ≠ .statusError
    ∧ interruptCalls [⟨"p", classify (waitResult false (some s)),
        waitResult false (some s)⟩] = [false]
    ∧ waitForAllErr [⟨"p", classify (waitResult false (some s)),
        waitResult false (some s)⟩] = none := by
  have hw : waitResult false (some s) = none := by
    simp [waitResult, h]
  refine ⟨?_, ?_, ?_, ?_⟩ <;>
    simp [hw, classify, interruptCalls, drain, waitForAllErr, errorsWrap]

theorem c5_amended_witness :
    startsWithSignal "signal: interrupt" = true
    ∧ (classify (waitResult false (some "signal: interrupt")) = .statusSuccess
      ∧ classify (waitResult false (some "signal: interrupt")) ≠ .statusError
      ∧ interruptCalls [⟨"p", classify (waitResult false (some "signal: interrupt")),
          waitResult false (some "signal: interrupt")⟩] = [false]
      ∧ waitForAllErr [⟨"p", classify (waitResult false (some "signal: interrupt")),
          waitResult false (some "signal: interrupt")⟩] = none) :=
  ⟨by decide, c5_amended "signal: interrupt" (by decide)⟩

/-! ### The fan-out (multiWriter, src/unnamed/part_025 lines 399-458) -/

/-- The outcome of one downstream writer's Write(p) call for the broadcast
byte slice: the byte count it reports and the error it returns. -/
structure writeOutcome where
  n : Nat
  err : Option GoError
deriving DecidableEq, Repr

/-- The error a writer contributes to lastErr in the loop body of
multiWriter.Write: its own error, or io.ErrShortWrite when it reported
fewer (or more) than len(p) bytes, or nothing when it succeeded. -/
def recErr (plen : Nat) (w : writeOutcome) : Option GoError :=
  match w.err with
  | some e => some e
  | none => if w.n = plen then none else some (.errMsg "short write")

/-- The loop of multiWriter.Write (src/unnamed/part_025, lines 436-450)
over the registered writers, carrying lastErr and ok, instrumented with the
number of writers the loop attempted to write to. -/
def mwLoop (plen : Nat) : List writeOutcome → Option GoError → Bool →
    Option GoError × Bool × Nat
  | [], lastErr, ok => (lastErr, ok, 0)
  | w :: ws, lastErr, ok =>
    match w.err with
    | some e =>
      let r := mwLoop plen ws (some e) ok
      (r.1, r.2.1, r.2.2 + 1)
    | none =>
      if w.n = plen then
        let r := mwLoop plen ws lastErr true
        (r.1, r.2.1, r.2.2 + 1)
      else
        let r := mwLoop plen ws (some (.errMsg "short write")) ok
        (r.1, r.2.1, r.2.2 + 1)

/-- multiWriter.Write (src/unnamed/part_025, lines 432-458): run the loop
over all writers; if at least one succeeded return (len(p), nil), else
return (0, lastErr). -/
def mwWrite (ws : List writeOutcome) (plen : Nat) : Nat × Option GoError :=
  let r := mwLoop plen ws none false
  if r.2.1 then (plen, none) else (0, r.1)

/-- Number of writers the broadcast attempted. -/
def mwAttempted (ws : List writeOutcome) (plen : Nat) : Nat :=
  (mwLoop plen ws none false).2.2

/-- The value of lastErr after the loop: the error recorded by the last
failing writer (later writers overwrite earlier ones). -/
def lastRecErr (plen : Nat) (ws : List writeOutcome) : Option GoError :=
  ws.foldl (fun acc w => match recErr plen w with | some e => some e | none => acc) none

theorem mwLoop_eq (plen : Nat) (ws : List writeOutcome) (le : Option GoError) (ok : Bool) :
    mwLoop plen ws le ok =
      (ws.foldl (fun acc w => match recErr plen w with | some e => some e | none => acc) le,
       ok || ws.any (fun w => decide (w.err = none ∧ w.n = plen)),
       ws.length) := by
  induction ws generalizing le ok with
  | nil => simp [mwLoop]
  | cons w ws ih =>
    match hw : w.err with
    | some e =>
      simp [mwLoop, hw, ih, recErr]
    | none =>
      by_cases hn : w.n = plen
      · simp [mwLoop, hw, hn, ih, recErr]
      · simp [mwLoop, hw, hn, ih, recErr]

theorem foldl_recErr_ne_none (plen : Nat) (ws : List writeOutcome)
    (hall : ∀ w ∈ ws, recErr plen w ≠ none) (hne : ws ≠ []) (acc : Option GoError) :
    ws.foldl (fun acc w => match recErr plen w with | some e => some e | none => acc) acc
      ≠ none := by
  induction ws generalizing acc with
  | nil => exact absurd rfl hne
  | cons w ws ih =>
    simp only [List.foldl]
    by_cases hws : ws = []
    · subst hws
      simp only [List.foldl]
      match h0 : recErr plen w with
      | some e => simp
      | none => exact absurd h0 (hall w (by simp))
    · exact ih (fun x hx => hall x (List.mem_cons_of_mem w hx)) hws _

/-- C2: multiWriter.Write attempts the write on every registered writer (an
error from one writer does not abort the broadcast), returns (len(p), nil)
iff at least one writer wrote all len(p) bytes without error (a short write
counts as failure), and when no writer succeeds it returns 0 together with
the last recorded error.  The hypothesis that the writer list is non-empty
reflects the fan-out construction: newMultiWriter starts with one writer
and the base writer is never removed. -/
theorem c2_multiWriter (ws : List writeOutcome) (plen : Nat) (hne : ws ≠ []) :
    mwAttempted ws plen = ws.length
    ∧ (mwWrite ws plen = (plen, none) ↔ ∃ w ∈ ws, w.err = none ∧ w.n = plen)
    ∧ ((∀ w ∈ ws, ¬(w.err = none ∧ w.n = plen)) →
        mwWrite ws plen = (0, lastRecErr plen ws) ∧ lastRecErr plen ws ≠ none) := by
  have hatt : mwAttempted ws plen = ws.length := by
    simp [mwAttempted, mwLoop_eq]
  by_cases h : ∃ w ∈ ws, w.err = none ∧ w.n = plen
  · have hmw : mwWrite ws plen = (plen, none) := by
      rw [mwWrite]
      simp [mwLoop_eq, h]
    refine ⟨hatt, by simp [hmw, h], ?_⟩
    intro hfail
    obtain ⟨w, hw, hs⟩ := h
    exact absurd hs (hfail w hw)
  · have hall : ∀ w ∈ ws, recErr plen w ≠ none := by
      intro w hw
      match he : w.err with
      | some e => simp [recErr, he]
      | none =>
        have hn : ¬ w.n = plen := fun hn => h ⟨w, hw, he, hn⟩
        simp [recErr, he, hn]
    have hlast : lastRecErr plen ws ≠ none :=
      foldl_recErr_ne_none plen ws hall hne none
    have hmw : mwWrite ws plen = (0, lastRecErr plen ws) := by
      rw [mwWrite]
      simp [mwLoop_eq, h, lastRecErr]
    refine ⟨hatt, ?_, fun _ => ⟨hmw, hlast⟩⟩
    rw [hmw]
    constructor
    · intro heq
      have h2 : lastRecErr plen ws = none := congrArg Prod.snd heq
      exact absurd h2 hlast
    · intro hex
      exact absurd hex h

/-- Concrete broadcast used as the witness for C2: the first writer fails,
the second accepts the full message. -/
def ws2 : List writeOutcome :=
  [⟨3, some (.errMsg "broken pipe")⟩, ⟨5, none⟩]

theorem c2_multiWriter_witness :
    ws2 ≠ []
    ∧ (mwAttempted ws2 5 = ws2.length
      ∧ (mwWrite ws2 5 = (5, none) ↔ ∃ w ∈ ws2, w.err = none ∧ w.n = 5)
      ∧ ((∀ w ∈ ws2, ¬(w.err = none ∧ w.n = 5)) →
          mwWrite ws2 5 = (0, lastRecErr 5 ws2) ∧ lastRecErr 5 ws2 ≠ none)) :=
  ⟨by decide, c2_multiWriter ws2 5 (by decide)⟩

/-! ### The JSON decorator (processJSONOutput, src/unnamed/part_025 lines 559-723) -/

/-- A value of a decoded JSON object field, as json.Unmarshal produces it
into a map from strings to interface values.  Only its being a string (and
which string) matters to the decorator's field extraction; all non-string
values are collapsed into one constructor since the decorator only ever
renders them through prettyJSON, which is passed in as an argument. -/
inductive JVal where
  | str : String → JVal
  | nonString : JVal
deriving DecidableEq, Repr

/-- A decoded JSON object: association list of fields with unique keys. -/
abbrev JObj := List (String × JVal)

/-- processJSONOutput.stringField: the value stored under the key if it is
a string, the empty string otherwise. -/
def stringField (m : JObj) (key : String) : String :=
  match m.lookup key with
  | some (.str s) => s
  | _ => ""

/-- Go's delete(m, key) on the decoded object. -/
def deleteField (m : JObj) (key : String) : JObj :=
  m.filter (fun kv => decide (kv.1 ≠ key))

/-- processJSONOutput.applyTags: run every tagging rule and keep the
non-empty tags, in rule order. -/
def applyTags (rules : List (JObj → String)) (m : JObj) : List String :=
  (rules.map (fun f => f m)).filter (fun t => decide (t ≠ ""))

/-- The color selection fold of processJSONOutput.Write: later tags with a
configured non-empty color override earlier ones. -/
def tagColor (tagActions : List (String × String)) (tags : List String) : String :=
  tags.foldl (fun col t =>
    match tagActions.lookup t with
    | none => col
    | some c => if c ≠ "" then c else col) ""

/-- colored from src/colors.go: fmt.Sprint(c, s, colorDefault). -/
def colored (c : String) (s : String) : String :=
  c ++ s ++ "\x1b[0m"

/-- The configuration fields of a processJSONOutput; tagging rules are kept
as functions exactly as in the Go struct. -/
structure jsonOutConf where
  messageField : String
  levelField : String
  taggingRules : List (JObj → String)
  tagActions : List (String × String)

/-- processJSONOutput.Write (src/unnamed/part_025, lines 636-679).  The
decoded argument stands for the outcome of json.Unmarshal(line, &m) on the
input line; render stands for prettyJSON (json.MarshalIndent flattened to
one line).  The result is the list of lines written downstream together
with the (n, err) pair Write returns; the downstream writer is modelled as
accepting every write. -/
def jsonWrite (conf : jsonOutConf) (render : JObj → Except GoError String)
    (line : String) (decoded : Except GoError JObj) :
    List String × Nat × Option GoError :=
  match decoded with
  | .error e => ([], 0, some (.wrapped "parsing JSON message" e))
  | .ok m =>
    let col := tagColor conf.tagActions (applyTags conf.taggingRules m)
    let msg := stringField m conf.messageField
    let lvl := stringField m conf.levelField
    let m1 := deleteField (deleteField m conf.messageField) conf.levelField
    let msg1 := if lvl ≠ "" then "[" ++ lvl.toUpper ++ "]\t" ++ msg else msg
    if m1 = [] then
      let msg3 := if col ≠ "" then colored col msg1 else msg1
      ([msg3 ++ "\n"], line.length, none)
    else
      match render m1 with
      | .error e => ([], 0, some e)
      | .ok extra =>
        let msg2 := msg1 ++ "\t" ++ extra
        let msg3 := if col ≠ "" then colored col msg2 else msg2
        ([msg3 ++ "\n"], line.length, none)

/-- A minimal concrete configuration (the default message and level field
names of newProcessJSONOutput with no tagging rules). -/
def conf0 : jsonOutConf := ⟨"message", "level", [], []⟩

/-- A render function standing for prettyJSON; the error branch of Write
never calls it. -/
def render0 : JObj → Except GoError String := fun _ => .ok ""

/-- C3 counterexample: a line that does not decode as a JSON object (here
the decoder reports an error, as json.Unmarshal does on the input "oops")
is dropped by processJSONOutput.Write: nothing at all is written
downstream — the raw line is not forwarded — and the wrapped decoder error
is returned to the caller; no log sink is involved in this code path. -/
theorem c3_counterexample :
    jsonWrite conf0 render0 "oops" (.error (.errMsg "invalid character"))
      = ([], 0, some (.wrapped "parsing JSON message" (.errMsg "invalid character")))
    ∧ ("oops" ∉ (jsonWrite conf0 render0 "oops" (.error (.errMsg "invalid character"))).1) := by
  constructor
  · rfl
  · intro h
    simp [jsonWrite] at h

/-- C3 (amended): for every configuration, render function, line and
decoder error, processJSONOutput.Write forwards nothing downstream and
returns (0, error wrapping the decode failure): the line is dropped, not
forwarded, and no log-sink reporting happens on this path. -/
theorem c3_amended (conf : jsonOutConf) (render : JObj → Except GoError String)
    (line : String) (e : GoError) :
    jsonWrite conf render line (.error e)
      = ([], 0, some (.wrapped "parsing JSON message" e)) := rfl

/-! ### The format auto-detection (processAutoDetectOutput, src/unnamed/part_025 lines 520-557) -/

/-- The format field of the auto-detect adapter's configuration. -/
inductive logFormat where
  | auto
  | json
  | unknown
deriving DecidableEq, Repr

/-- State of a processAutoDetectOutput: its conf.Format field and whether
its Writer has been replaced by the JSON decorator. -/
structure autoDetectState where
  fmt : logFormat
  jsonWriter : Bool
deriving DecidableEq, Repr

/-- newProcessAutoDetectOutput forces conf.Format to "auto" and keeps the
plain downstream writer. -/
def newAutoDetect : autoDetectState := ⟨.auto, false⟩

/-- detectFormat (src/unnamed/part_025, lines 547-557): on decode success
switch to JSON and install the JSON decorator as the Writer; on failure
record "unknown".  decodesAsObject stands for the success of
json.Unmarshal on the line. -/
def detectFormat (s : autoDetectState) (decodesAsObject : Bool) : autoDetectState :=
  if decodesAsObject then ⟨.json, true⟩ else ⟨.unknown, s.jsonWriter⟩

/-- processAutoDetectOutput.Write (src/unnamed/part_025, lines 537-545):
run detection while the format is still "auto", then write the line to the
(possibly just replaced) Writer.  The returned flag records whether this
line went through the JSON decorator. -/
def autoDetectWrite (s : autoDetectState) (decodesAsObject : Bool) : autoDetectState × Bool :=
  let s1 := if s.fmt = .auto then detectFormat s decodesAsObject else s
  (s1, s1.jsonWriter)

/-- Repeated Write calls over the decode outcomes of the successive lines
of one process within one Run; returns the final state and, per line,
whether it was processed by the JSON decorator. -/
def autoDetectRun (s : autoDetectState) : List Bool → autoDetectState × List Bool
  | [] => (s, [])
  | l :: ls =>
    let r := autoDetectWrite s l
    let rest := autoDetectRun r.1 ls
    (rest.1, r.2 :: rest.2)

theorem autoDetectRun_json (ls : List Bool) :
    autoDetectRun ⟨.json, true⟩ ls = (⟨.json, true⟩, ls.map (fun _ => true)) := by
  induction ls with
  | nil => rfl
  | cons l ls ih => simp [autoDetectRun, autoDetectWrite, ih]

theorem autoDetectWrite_json_fixed (s : autoDetectState) (h : s.fmt = .json) (l : Bool) :
    (autoDetectWrite s l).1 = s := by
  simp [autoDetectWrite, h]

/-- C8: if the first line of a process decodes as a JSON object, the
auto-detect adapter enters JSON mode, the first line itself and every
subsequent line of the Run are fed through the JSON decorator, and once
the adapter is in JSON mode it never leaves it. -/
theorem c8_autoDetect (ls rest : List Bool) (h : ls = true :: rest) :
    (autoDetectRun newAutoDetect ls).1.fmt = .json
    ∧ (autoDetectRun newAutoDetect ls).2 = ls.map (fun _ => true)
    ∧ (∀ s : autoDetectState, s.fmt = .json → ∀ ls2 : List Bool,
        (autoDetectRun s ls2).1 = s) := by
  subst h
  have hstep : autoDetectWrite newAutoDetect true = (⟨.json, true⟩, true) := rfl
  refine ⟨?_, ?_, ?_⟩
  · simp [autoDetectRun, hstep, autoDetectRun_json]
  · simp [autoDetectRun, hstep, autoDetectRun_json]
  · intro s hs ls2
    induction ls2 with
    | nil => rfl
    | cons l ls ih =>
      simp [autoDetectRun, autoDetectWrite_json_fixed s hs, ih]

theorem c8_autoDetect_witness :
    ([true, false, true] : List Bool) = true :: [false, true]
    ∧ ((autoDetectRun newAutoDetect [true, false, true]).1.fmt = .json
      ∧ (autoDetectRun newAutoDetect [true, false, true]).2
          = [true, false, true].map (fun _ => true)
      ∧ (∀ s : autoDetectState, s.fmt = .json → ∀ ls2 : List Bool,
          (autoDetectRun s ls2).1 = s)) :=
  ⟨by decide, c8_autoDetect [true, false, true] [false, true] (by decide)⟩

/-! ### Script tokenization (systemProcess.parseCommandLine, src/unnamed/part_030 lines 243-316) -/

/-- Whether a Go (value, error) pair is the error case. -/
def isErr {α : Type} : Except GoError α → Bool
  | .error _ => true
  | .ok _ => false

/-- unicode.IsSpace, which for every rune below 0x100 (the only characters
exercised here) returns true exactly on these code points. -/
def isSpace (c : Char) : Bool :=
  c == ' ' || c == '\t' || c == '\n' || c == '\x0b' || c == '\x0c' || c == '\r'
    || c == Char.ofNat 0x85 || c == Char.ofNat 0xa0

/-- The shell metacharacters rejected by the tokenizer. -/
def isMeta (c : Char) : Bool :=
  c == ';' || c == '&' || c == '|' || c == '<' || c == '>'

/-- The single-quote character. -/
def squote : Char := Char.ofNat 39

/-- The loop state of parseCommandLine: collected arguments, current
buffer, and the escape/quote flags. -/
structure tkState where
  args : List (List Char)
  buf : List Char
  escaped : Bool
  doubleQuoted : Bool
  singleQuoted : Bool
deriving DecidableEq, Repr

def tkInit : tkState := ⟨[], [], false, false, false⟩

/-- One iteration of the character switch of parseCommandLine
(src/unnamed/part_030, lines 252-288), with the cases in source order. -/
def tkStep (s : tkState) (r : Char) : Except GoError tkState :=
  if s.escaped then
    .ok { s with buf := s.buf ++ [r], escaped := false }
  else if r = '\\' ∧ ¬s.singleQuoted then
    .ok { s with escaped := true }
  else if isSpace r ∧ (s.singleQuoted ∨ s.doubleQuoted) then
    .ok { s with buf := s.buf ++ [r] }
  else if isSpace r ∧ s.buf ≠ [] then
    .ok { s with args := s.args ++ [s.buf], buf := [] }
  else if isSpace r ∧ s.buf = [] then
    .ok s
  else if r = '"' ∧ ¬s.singleQuoted then
    .ok { s with doubleQuoted := !s.doubleQuoted }
  else if r = squote ∧ ¬s.doubleQuoted then
    .ok { s with singleQuoted := !s.singleQuoted }
  else if isMeta r then
    if ¬(s.escaped ∨ s.singleQuoted ∨ s.doubleQuoted) then
      .error (.errMsg "command redirection or piping is not supported")
    else
      .ok { s with buf := s.buf ++ [r] }
  else
    .ok { s with buf := s.buf ++ [r] }

/-- The character loop of parseCommandLine. -/
def tkRun (s : tkState) : List Char → Except GoError tkState
  | [] => .ok s
  | c :: cs =>
    match tkStep s c with
    | .error e => .error e
    | .ok s1 => tkRun s1 cs

/-- The end-of-loop checks and the final buffer flush of parseCommandLine
(src/unnamed/part_030, lines 290-301). -/
def tkFinish (s : tkState) : Except GoError (List (List Char)) :=
  if s.escaped then .error (.errMsg "bad escape at the end")
  else if s.singleQuoted then .error (.errMsg "unclosed single quote")
  else if s.doubleQuoted then .error (.errMsg "unclosed double quote")
  else if s.buf ≠ [] then .ok (s.args ++ [s.buf])
  else .ok s.args

/-- The tokenization phase of parseCommandLine, before variable expansion. -/
def tokenize (script : List Char) : Except GoError (List (List Char)) :=
  match tkRun tkInit script with
  | .error e => .error e
  | .ok s => tkFinish s

/-- An Environment (src/env.go) as fed to one process. -/
abbrev Environment := List (String × String)

/-- Environment.Get(key, defaultValue) from src/env.go. -/
def envGet (env : Environment) (key : String) (dflt : String) : String :=
  match env.lookup key with
  | some v => v
  | none => dflt

/-- The character class [a-zA-Z0-9_] of the env-var regex of
parseCommandLine (src/unnamed/part_030, line 303). -/
def isEnvChar (c : Char) : Bool :=
  decide (('a' ≤ c ∧ c ≤ 'z') ∨ ('A' ≤ c ∧ c ≤ 'Z') ∨ ('0' ≤ c ∧ c ≤ '9') ∨ c = '_')

def lbrace : Char := Char.ofNat 123

def rbrace : Char := Char.ofNat 125

/-- envRe.ReplaceAllStringFunc on one token (src/unnamed/part_030, lines
305-313): every occurrence of a brace form or a bare $NAME over
[a-zA-Z0-9_]+ is replaced by env.Get(NAME, ""); a dollar that starts no
such pattern stays in place, and scanning resumes after each match as the
regexp engine does. -/
def replaceEnvVars (env : Environment) : List Char → List Char
  | [] => []
  | c :: rest =>
    if c = '$' then
      match rest with
      | [] => ['$']
      | c2 :: rest2 =>
        if c2 = lbrace then
          let name := rest2.takeWhile isEnvChar
          if name ≠ [] ∧ (rest2.drop name.length).head? = some rbrace then
            (envGet env (String.mk name) "").toList
              ++ replaceEnvVars env (rest2.drop (name.length + 1))
          else
            '$' :: replaceEnvVars env (c2 :: rest2)
        else
          let name := (c2 :: rest2).takeWhile isEnvChar
          if name = [] then
            '$' :: replaceEnvVars env (c2 :: rest2)
          else
            (envGet env (String.mk name) "").toList
              ++ replaceEnvVars env ((c2 :: rest2).drop name.length)
    else
      c :: replaceEnvVars env rest
termination_by l => l.length
decreasing_by
  all_goals simp_wf
  all_goals omega

/-- systemProcess.parseCommandLine (src/unnamed/part_030, lines 243-316):
tokenize the script, then expand environment variables in every argument. -/
def parseCommandLine (env : Environment) (script : List Char) :
    Except GoError (List (List Char)) :=
  match tokenize script with
  | .error e => .error e
  | .ok args => .ok (args.map (replaceEnvVars env))

/-- Spec-side quoting context over a script prefix: a pending backslash
escape, an open double-quoted span, an open single-quoted span. -/
structure quoteState where
  escaped : Bool
  doubleQuoted : Bool
  singleQuoted : Bool
deriving DecidableEq, Repr

def qInit : quoteState := ⟨false, false, false⟩

/-- How one character advances the spec's quoting context (section 6.4 of
the spec: backslash escapes the next character outside single quotes,
double quotes toggle outside single quotes, single quotes toggle outside
double quotes). -/
def qStep (q : quoteState) (r : Char) : quoteState :=
  if q.escaped then { q with escaped := false }
  else if r = '\\' ∧ ¬q.singleQuoted then { q with escaped := true }
  else if r = '"' ∧ ¬q.singleQuoted then { q with doubleQuoted := !q.doubleQuoted }
  else if r = squote ∧ ¬q.doubleQuoted then { q with singleQuoted := !q.singleQuoted }
  else q

def qRun (q : quoteState) : List Char → quoteState
  | [] => q
  | c :: cs => qRun (qStep q c) cs

/-- A metacharacter occurring unescaped and unquoted. -/
def badMeta (q : quoteState) (c : Char) : Bool :=
  isMeta c && !(q.escaped || q.singleQuoted || q.doubleQuoted)

/-- Spec predicate: the script contains an unquoted, unescaped ';', '|',
'<', '>' or '&'. -/
def hasUnquotedMeta (q : quoteState) : List Char → Bool
  | [] => false
  | c :: cs => badMeta q c || hasUnquotedMeta (qStep q c) cs

/-- Spec predicate: scripts the grammar of section 6.4 rejects — an
unquoted metacharacter, an unterminated quote, or a trailing unescaped
backslash. -/
def specRejected (script : List Char) : Bool :=
  hasUnquotedMeta qInit script
    || (qRun qInit script).singleQuoted
    || (qRun qInit script).doubleQuoted
    || (qRun qInit script).escaped

/-- The escape/quote flags of a tokenizer state. -/
def tkFlags (s : tkState) : quoteState := ⟨s.escaped, s.doubleQuoted, s.singleQuoted⟩

theorem isSpace_elim (c : Char) (h : isSpace c = true) :
    isMeta c = false ∧ c ≠ '\\' ∧ c ≠ '"' ∧ c ≠ squote := by
  simp only [isSpace, Bool.or_eq_true, beq_iff_eq, or_assoc] at h
  rcases h with rfl | rfl | rfl | rfl | rfl | rfl | rfl | rfl <;>
    exact ⟨by decide, by decide, by decide, by decide⟩

theorem isMeta_elim (c : Char) (h : isMeta c = true) :
    c ≠ '\\' ∧ c ≠ '"' ∧ c ≠ squote := by
  simp only [isMeta, Bool.or_eq_true, beq_iff_eq, or_assoc] at h
  rcases h with rfl | rfl | rfl | rfl | rfl <;> exact ⟨by decide, by decide, by decide⟩

theorem tkStep_error_iff (s : tkState) (c : Char) :
    isErr (tkStep s c) = badMeta (tkFlags s) c := by
  rw [tkStep]
  split_ifs with h1 h2 h3 h4 h5 h6 h7 h8 h9
  · simp [isErr, badMeta, tkFlags, h1]
  · obtain ⟨rfl, -⟩ := h2
    simp [isErr, badMeta, isMeta]
  · obtain ⟨hs, -⟩ := h3
    simp [isErr, badMeta, (isSpace_elim c hs).1]
  · obtain ⟨hs, -⟩ := h4
    simp [isErr, badMeta, (isSpace_elim c hs).1]
  · obtain ⟨hs, -⟩ := h5
    simp [isErr, badMeta, (isSpace_elim c hs).1]
  · obtain ⟨rfl, -⟩ := h6
    simp [isErr, badMeta, isMeta]
  · obtain ⟨rfl, -⟩ := h7
    have hM : isMeta squote = false := by decide
    simp [isErr, badMeta, hM]
  · rcases h9 with ha | ha | ha <;> simp [isErr, badMeta, tkFlags, h8, ha]
  · simp only [not_or, Bool.not_eq_true] at h9
    obtain ⟨ha, hb, hc⟩ := h9
    simp [isErr, badMeta, tkFlags, h8, ha, hb, hc]
  · simp only [Bool.not_eq_true] at h8
    simp [isErr, badMeta, h8]

theorem qStep_id (q : quoteState) (c : Char) (h1 : ¬q.escaped = true)
    (h2 : ¬(c = '\\' ∧ ¬q.singleQuoted = true))
    (h6 : ¬(c = '"' ∧ ¬q.singleQuoted = true))
    (h7 : ¬(c = squote ∧ ¬q.doubleQuoted = true)) :
    qStep q c = q := by
  rw [qStep, if_neg h1, if_neg h2, if_neg h6, if_neg h7]

theorem tkStep_flags (s : tkState) (c : Char) (s' : tkState) (h : tkStep s c = .ok s') :
    tkFlags s' = qStep (tkFlags s) c := by
  rw [tkStep] at h
  split_ifs at h with h1 h2 h3 h4 h5 h6 h7 h8 h9
  · injection h with h
    subst h
    simp [qStep, tkFlags, h1]
  · injection h with h
    subst h
    obtain ⟨rfl, hb⟩ := h2
    simp [qStep, tkFlags, h1, hb]
  · injection h with h
    subst h
    obtain ⟨hs, -⟩ := h3
    obtain ⟨-, hb, hd, hq⟩ := isSpace_elim c hs
    simp [qStep, tkFlags, h1, hb, hd, hq]
  · injection h with h
    subst h
    obtain ⟨hs, -⟩ := h4
    obtain ⟨-, hb, hd, hq⟩ := isSpace_elim c hs
    simp [qStep, tkFlags, h1, hb, hd, hq]
  · injection h with h
    subst h
    obtain ⟨hs, -⟩ := h5
    obtain ⟨-, hb, hd, hq⟩ := isSpace_elim c hs
    simp [qStep, tkFlags, h1, hb, hd, hq]
  · injection h with h
    subst h
    obtain ⟨rfl, hq⟩ := h6
    have hb : ('"' : Char) ≠ '\\' := by decide
    simp [qStep, tkFlags, h1, hb, hq]
  · injection h with h
    subst h
    obtain ⟨rfl, hd⟩ := h7
    have hb : squote ≠ '\\' := by decide
    have hdq : squote ≠ '"' := by decide
    simp [qStep, tkFlags, h1, hb, hdq, hd]
  · injection h with h
    subst h
    obtain ⟨hb, hd, hq⟩ := isMeta_elim c h8
    simp [qStep, tkFlags, h1, hb, hd, hq]
  · injection h with h
    subst h
    rw [qStep_id (tkFlags s) c h1 h2 h6 h7]
    rfl

theorem tkRun_sim (cs : List Char) (s : tkState) :
    isErr (tkRun s cs) = hasUnquotedMeta (tkFlags s) cs
    ∧ ∀ s', tkRun s cs = .ok s' → tkFlags s' = qRun (tkFlags s) cs := by
  induction cs generalizing s with
  | nil =>
    refine ⟨rfl, fun s' h => ?_⟩
    injection h with h
    subst h
    rfl
  | cons c cs ih =>
    cases hstep : tkStep s c with
    | error e =>
      have hbad : badMeta (tkFlags s) c = true := by
        rw [← tkStep_error_iff, hstep]
        rfl
      constructor
      · simp only [tkRun, hstep, hasUnquotedMeta, hbad]
        simp [isErr]
      · intro s' h
        simp only [tkRun, hstep] at h
        exact absurd h (by simp)
    | ok s1 =>
      have hbad : badMeta (tkFlags s) c = false := by
        rw [← tkStep_error_iff, hstep]
        rfl
      have hf := tkStep_flags s c s1 hstep
      constructor
      · simp only [tkRun, hstep, hasUnquotedMeta, hbad]
        simp [(ih s1).1, hf]
      · intro s' h
        simp only [tkRun, hstep] at h
        rw [qRun, ← hf]
        exact (ih s1).2 s' h

theorem tkFinish_isErr (s : tkState) :
    isErr (tkFinish s) = (s.escaped || s.singleQuoted || s.doubleQuoted) := by
  rw [tkFinish]
  split_ifs with h1 h2 h3 h4 <;> simp_all [isErr]

theorem tokenize_isErr (script : List Char) :
    isErr (tokenize script) = specRejected script := by
  rw [tokenize, specRejected]
  have hq : tkFlags tkInit = qInit := rfl
  cases hrun : tkRun tkInit script with
  | error e =>
    have h1 := (tkRun_sim script tkInit).1
    rw [hrun, hq] at h1
    have h1' : hasUnquotedMeta qInit script = true := by
      simpa [isErr] using h1.symm
    simp [isErr, h1']
  | ok s =>
    have h1 := (tkRun_sim script tkInit).1
    have h2 := (tkRun_sim script tkInit).2 s hrun
    rw [hrun, hq] at h1
    rw [hq] at h2
    have h1' : hasUnquotedMeta qInit script = false := by
      simpa [isErr] using h1.symm
    rw [tkFinish_isErr, h1']
    have he : s.escaped = (qRun qInit script).escaped := by
      rw [← h2]
      rfl
    have hs2 : s.singleQuoted = (qRun qInit script).singleQuoted := by
      rw [← h2]
      rfl
    have hd : s.doubleQuoted = (qRun qInit script).doubleQuoted := by
      rw [← h2]
      rfl
    rw [he, hs2, hd]
    generalize (qRun qInit script).escaped = a
    generalize (qRun qInit script).singleQuoted = b
    generalize (qRun qInit script).doubleQuoted = d
    cases a <;> cases b <;> cases d <;> rfl

/-- C6: parseCommandLine returns an error if and only if the script
contains an unquoted, unescaped ';', '|', '<', '>' or '&', contains an
unterminated single or double quote, or ends with a trailing unescaped
backslash (the spec-side predicate specRejected); every other script
yields an argv without error.  Variable expansion runs after tokenization
and never fails. -/
theorem c6_parseCommandLine (env : Environment) (script : List Char) :
    isErr (parseCommandLine env script) = specRejected script := by
  have h := tokenize_isErr script
  rw [parseCommandLine]
  cases htok : tokenize script with
  | error e =>
    rw [htok] at h
    exact h
  | ok args =>
    rw [htok] at h
    exact h

theorem tkStep_args_inv (s : tkState) (c : Char) (s' : tkState) (h : tkStep s c = .ok s')
    (hinv : ∀ a ∈ s.args, a ≠ []) : ∀ a ∈ s'.args, a ≠ [] := by
  rw [tkStep] at h
  split_ifs at h with h1 h2 h3 h4 h5 h6 h7 h8 h9
  · injection h with h; subst h; exact hinv
  · injection h with h; subst h; exact hinv
  · injection h with h; subst h; exact hinv
  · injection h with h
    subst h
    intro a ha
    rcases List.mem_append.mp ha with hm | hm
    · exact hinv a hm
    · rw [List.mem_singleton.mp hm]
      exact h4.2
  · injection h with h; subst h; exact hinv
  · injection h with h; subst h; exact hinv
  · injection h with h; subst h; exact hinv
  · injection h with h; subst h; exact hinv
  · injection h with h; subst h; exact hinv

theorem tkRun_args_inv (cs : List Char) (s : tkState) (hinv : ∀ a ∈ s.args, a ≠ [])
    (s' : tkState) (h : tkRun s cs = .ok s') : ∀ a ∈ s'.args, a ≠ [] := by
  induction cs generalizing s with
  | nil =>
    injection h with h
    subst h
    exact hinv
  | cons c cs ih =>
    simp only [tkRun] at h
    cases hstep : tkStep s c with
    | error e =>
      rw [hstep] at h
      exact absurd h (by simp)
    | ok s1 =>
      rw [hstep] at h
      exact ih s1 (tkStep_args_inv s c s1 hstep hinv) h

theorem tokenize_args_ne_nil (script : List Char) (args : List (List Char))
    (h : tokenize script = .ok args) : ∀ a ∈ args, a ≠ [] := by
  rw [tokenize] at h
  cases hrun : tkRun tkInit script with
  | error e =>
    rw [hrun] at h
    exact absurd h (by simp)
  | ok s =>
    rw [hrun] at h
    have hinv := tkRun_args_inv script tkInit
      (by intro a ha; exact absurd ha (List.not_mem_nil a)) s hrun
    simp only [tkFinish] at h
    split_ifs at h with h1 h2 h3 h4
    · injection h with h
      subst h
      intro a ha
      rcases List.mem_append.mp ha with hm | hm
      · exact hinv a hm
      · rw [List.mem_singleton.mp hm]
        exact h4
    · injection h with h
      subst h
      exact hinv

/-- Script of the C10 counterexample. -/
def script10 : List Char := String.toList "echo $FOO x"

/-- C10 counterexample: parseCommandLine (the cited symbol, which includes
variable expansion after tokenization) CAN produce an empty argv element:
under the empty environment, the unset variable in echo $FOO x expands to
the empty string and the resulting argv is [echo, <empty>, x]. -/
theorem c10_counterexample :
    parseCommandLine [] script10
      = .ok [String.toList "echo", [], String.toList "x"]
    ∧ ([] : List Char) ∈ [String.toList "echo", ([] : List Char), String.toList "x"] := by
  constructor
  · have htok : tokenize script10
        = .ok [String.toList "echo", String.toList "$FOO", String.toList "x"] := by
      rfl
    simp only [parseCommandLine, htok]
    simp [replaceEnvVars, envGet, isEnvChar, lbrace, rbrace]
  · simp

/-- C10 (amended): the tokenization phase itself never emits an empty argv
element — in particular an empty quoted span delimited by whitespace, as in
echo '' x, is omitted from the argv, which tokenizes to [echo, x] — but the
variable expansion parseCommandLine applies afterwards can produce an empty
element (see the counterexample). -/
theorem c10_amended :
    (∀ script args, tokenize script = .ok args → ∀ a ∈ args, a ≠ [])
    ∧ tokenize (String.toList "echo " ++ [squote, squote] ++ String.toList " x")
        = .ok [String.toList "echo", String.toList "x"] :=
  ⟨tokenize_args_ne_nil, rfl⟩

theorem c10_amended_witness :
    tokenize (String.toList "ls -la") = .ok [String.toList "ls", String.toList "-la"]
    ∧ (∀ a ∈ [String.toList "ls", String.toList "-la"], a ≠ []) :=
  ⟨rfl, c10_amended.1 (String.toList "ls -la") [String.toList "ls", String.toList "-la"] rfl⟩

/-! ### Environment variable expansion (Environment.Expand, src/env.go lines 137-144) -/

/-- os.Expand's special shell parameter characters (Go getShellName). -/
def isShellSpecialVar (c : Char) : Bool :=
  c == '*' || c == '#' || c == '$' || c == '@' || c == '!' || c == '?'
    || decide ('0' ≤ c ∧ c ≤ '9')

/-- os.Expand's shell-name characters: letters, digits and underscore. -/
def isAlphaNum (c : Char) : Bool :=
  c == '_' || decide ('0' ≤ c ∧ c ≤ '9') || decide ('a' ≤ c ∧ c ≤ 'z')
    || decide ('A' ≤ c ∧ c ≤ 'Z')

/-- The closing-brace scan of Go's getShellName, on the text after the
opening brace: an immediately closing brace is the eaten bad-syntax pair, a
missing closing brace eats only the opening brace, otherwise everything up
to the closing brace is the name. -/
def getBrace (cs : List Char) : List Char × Nat :=
  match cs.findIdx? (fun c => c == rbrace) with
  | none => ([], 1)
  | some 0 => ([], 2)
  | some (j + 1) => (cs.take (j + 1), j + 3)

/-- The brace-form handling of Go's getShellName on the text after the
opening brace: the special-variable fast path, then the scan to the
closing brace. -/
def braceName (cs : List Char) : List Char × Nat :=
  match cs with
  | c1 :: c2 :: _ =>
    if isShellSpecialVar c1 ∧ c2 = rbrace then ([c1], 3)
    else getBrace cs
  | _ => getBrace cs

/-- getShellName of the Go standard library (called by os.Expand, which
Environment.Expand wraps): given the text following a dollar, the variable
name and the number of consumed characters; ([], w with w > 0) encodes the
eaten bad-syntax cases and ([], 0) a dollar that is left untouched. -/
def getShellName (s : List Char) : List Char × Nat :=
  match s with
  | [] => ([], 0)
  | c :: cs =>
    if c = lbrace then braceName cs
    else if isShellSpecialVar c then ([c], 1)
    else
      let name := (c :: cs).takeWhile isAlphaNum
      (name, name.length)

/-- os.Expand of the Go standard library: scan for dollars, resolve shell
names through the mapping, eat bad syntax, and leave a dollar that starts
no name untouched. -/
def expandGo (mapping : String → String) : List Char → List Char
  | [] => []
  | c :: rest =>
    if c = '$' ∧ rest ≠ [] then
      let r := getShellName rest
      if r.1 = [] ∧ r.2 ≠ 0 then
        expandGo mapping (rest.drop r.2)
      else if r.1 = [] then
        '$' :: expandGo mapping rest
      else
        (mapping (String.mk r.1)).toList ++ expandGo mapping (rest.drop r.2)
    else
      c :: expandGo mapping rest
termination_by l => l.length
decreasing_by
  all_goals simp_wf
  all_goals omega

/-- Environment.Expand (src/env.go, lines 140-144): os.Expand with the
mapping that looks keys up in the Environment, unknown keys expanding to
the empty string. -/
def envExpand (e : Environment) (input : List Char) : List Char :=
  expandGo (fun key => envGet e key "") input

theorem expandGo_nil (mapping : String → String) : expandGo mapping [] = [] := by
  simp [expandGo]

theorem expandGo_cons_ne (mapping : String → String) (c : Char) (rest : List Char)
    (h : ¬(c = '$' ∧ rest ≠ [])) :
    expandGo mapping (c :: rest) = c :: expandGo mapping rest := by
  simp only [expandGo]
  rw [if_neg h]

theorem expandGo_cons_eat (mapping : String → String) (rest : List Char) (hne : rest ≠ [])
    (h : (getShellName rest).1 = [] ∧ (getShellName rest).2 ≠ 0) :
    expandGo mapping ('$' :: rest) = expandGo mapping (rest.drop (getShellName rest).2) := by
  simp only [expandGo]
  rw [if_pos ⟨trivial, hne⟩, if_pos h]

theorem expandGo_cons_untouched (mapping : String → String) (rest : List Char)
    (hne : rest ≠ []) (h : getShellName rest = ([], 0)) :
    expandGo mapping ('$' :: rest) = '$' :: expandGo mapping rest := by
  simp only [expandGo]
  rw [if_pos ⟨trivial, hne⟩]
  rw [if_neg (by rw [h]; simp)]
  rw [if_pos (by rw [h])]

theorem expandGo_cons_mapped (mapping : String → String) (rest : List Char)
    (hne : rest ≠ []) (h : (getShellName rest).1 ≠ []) :
    expandGo mapping ('$' :: rest)
      = (mapping (String.mk (getShellName rest).1)).toList
          ++ expandGo mapping (rest.drop (getShellName rest).2) := by
  simp only [expandGo]
  rw [if_pos ⟨trivial, hne⟩]
  rw [if_neg (by intro hx; exact h hx.1)]
  rw [if_neg h]

theorem getBrace_w_ne_zero (cs : List Char) : (getBrace cs).2 ≠ 0 := by
  rcases hf : cs.findIdx? (fun c => c == rbrace) with _ | j
  · simp [getBrace, hf]
  · cases j <;> simp [getBrace, hf]

theorem braceName_w_ne_zero (cs : List Char) : (braceName cs).2 ≠ 0 := by
  match cs with
  | [] => exact getBrace_w_ne_zero []
  | [c1] => exact getBrace_w_ne_zero [c1]
  | c1 :: c2 :: rest =>
    simp only [braceName]
    split_ifs with hsp
    · simp
    · exact getBrace_w_ne_zero (c1 :: c2 :: rest)

theorem getShellName_eq_untouched (c : Char) (cs : List Char)
    (h : getShellName (c :: cs) = ([], 0)) :
    c ≠ lbrace ∧ isShellSpecialVar c = false ∧ isAlphaNum c = false ∧ c ≠ '$' := by
  by_cases hl : c = lbrace
  · exfalso
    simp only [getShellName, if_pos hl] at h
    exact braceName_w_ne_zero cs (congrArg Prod.snd h)
  · by_cases hsp : isShellSpecialVar c = true
    · exfalso
      simp only [getShellName, if_neg hl, if_pos hsp] at h
      exact absurd (congrArg Prod.snd h) (by simp)
    · have hsp' : isShellSpecialVar c = false := by
        revert hsp
        cases isShellSpecialVar c <;> simp
      by_cases han : isAlphaNum c = true
      · exfalso
        simp only [getShellName, if_neg hl, hsp'] at h
        rw [List.takeWhile_cons_of_pos (by simp [han])] at h
        exact absurd (congrArg Prod.fst h) (by simp)
      · have han' : isAlphaNum c = false := by
          revert han
          cases isAlphaNum c <;> simp
        have hd : c ≠ '$' := by
          intro hce
          rw [hce] at hsp'
          exact absurd hsp' (by decide)
        exact ⟨hl, hsp', han', hd⟩

theorem getShellName_untouched_any (c : Char) (cs : List Char) (hl : c ≠ lbrace)
    (hsp : isShellSpecialVar c = false) (han : isAlphaNum c = false) :
    getShellName (c :: cs) = ([], 0) := by
  simp only [getShellName, if_neg hl, hsp]
  rw [List.takeWhile_cons_of_neg (by simp [han])]
  simp

theorem expandGo_dollarFree_append (mapping : String → String) (v t : List Char)
    (hv : '$' ∉ v) : expandGo mapping (v ++ t) = v ++ expandGo mapping t := by
  induction v with
  | nil => simp
  | cons a v ih =>
    have ha : ¬(a = '$' ∧ (v ++ t) ≠ []) := by
      rintro ⟨rfl, -⟩
      exact hv (List.mem_cons_self _ _)
    rw [List.cons_append, expandGo_cons_ne mapping a (v ++ t) ha]
    rw [ih (fun hx => hv (List.mem_cons_of_mem _ hx))]
    rfl

theorem expandGo_idem_aux (mapping : String → String)
    (hm : ∀ name : String, '$' ∉ (mapping name).toList) :
    ∀ n : Nat, ∀ s : List Char, s.length ≤ n →
      expandGo mapping (expandGo mapping s) = expandGo mapping s := by
  intro n
  induction n with
  | zero =>
    intro s hs
    have hnil : s = [] := List.length_eq_zero.mp (Nat.le_zero.mp hs)
    subst hnil
    rw [expandGo_nil, expandGo_nil]
  | succ n ih =>
    intro s hs
    match s with
    | [] => rw [expandGo_nil, expandGo_nil]
    | c :: rest =>
      by_cases hc : c = '$' ∧ rest ≠ []
      · obtain ⟨rfl, hrest⟩ := hc
        have hlen : rest.length ≤ n := by
          simp only [List.length_cons] at hs
          omega
        by_cases hp : (getShellName rest).1 = []
        · by_cases hw : (getShellName rest).2 = 0
          · -- the dollar is left untouched
            have hg : getShellName rest = ([], 0) := by
              rw [Prod.ext_iff]
              exact ⟨hp, hw⟩
            rw [expandGo_cons_untouched mapping rest hrest hg]
            obtain ⟨c2, rest2, rfl⟩ := List.exists_cons_of_ne_nil hrest
            obtain ⟨hl, hsp, han, hd⟩ := getShellName_eq_untouched c2 rest2 hg
            have hne2 : ¬(c2 = '$' ∧ rest2 ≠ []) := by
              rintro ⟨rfl, -⟩
              exact hd rfl
            rw [expandGo_cons_ne mapping c2 rest2 hne2]
            have hg2 : getShellName (c2 :: expandGo mapping rest2) = ([], 0) :=
              getShellName_untouched_any c2 _ hl hsp han
            rw [expandGo_cons_untouched mapping _ (by simp) hg2]
            have hne3 : ¬(c2 = '$' ∧ expandGo mapping rest2 ≠ []) := by
              rintro ⟨rfl, -⟩
              exact hd rfl
            rw [expandGo_cons_ne mapping c2 _ hne3]
            have hlen2 : rest2.length ≤ n := by
              simp only [List.length_cons] at hlen
              omega
            rw [ih rest2 hlen2]
          · -- bad syntax, eaten
            rw [expandGo_cons_eat mapping rest hrest ⟨hp, hw⟩]
            have hld : (rest.drop (getShellName rest).2).length
                = rest.length - (getShellName rest).2 := List.length_drop _ _
            exact ih _ (by omega)
        · -- a name, resolved through the mapping
          rw [expandGo_cons_mapped mapping rest hrest hp]
          rw [expandGo_dollarFree_append mapping _ _ (hm _)]
          have hld : (rest.drop (getShellName rest).2).length
              = rest.length - (getShellName rest).2 := List.length_drop _ _
          rw [ih _ (by omega)]
      · rw [expandGo_cons_ne mapping c rest hc]
        by_cases hc2 : c = '$'
        · have hrest : rest = [] := by
            by_contra hne
            exact hc ⟨hc2, hne⟩
          subst hrest
          subst hc2
          rw [expandGo_nil]
          rw [expandGo_cons_ne mapping '$' [] (by simp), expandGo_nil]
        · have hlen : rest.length ≤ n := by
            simp only [List.length_cons] at hs
            omega
          rw [expandGo_cons_ne mapping c _ (by rintro ⟨rfl, -⟩; exact hc2 rfl)]
          rw [ih rest hlen]

theorem expandGo_idem (mapping : String → String)
    (hm : ∀ name : String, '$' ∉ (mapping name).toList) (s : List Char) :
    expandGo mapping (expandGo mapping s) = expandGo mapping s :=
  expandGo_idem_aux mapping hm s.length s le_rfl

/-- Environment of the C7 counterexample: the value of X itself contains a
dollar reference. -/
def env7 : Environment := [("X", "$Y")]

/-- C7 counterexample: Environment.Expand is not idempotent.  With
E = (X -> "$Y"), expanding "$X" once yields "$Y", and expanding again
yields the empty string since Y is unset. -/
theorem c7_counterexample :
    envExpand env7 (envExpand env7 (String.toList "$X"))
      ≠ envExpand env7 (String.toList "$X") := by
  have h1 : envExpand env7 (String.toList "$X") = String.toList "$Y" := by
    simp [envExpand, expandGo, getShellName, envGet, isShellSpecialVar, isAlphaNum,
      lbrace, env7, List.takeWhile, List.lookup]
  have h2 : envExpand env7 (String.toList "$Y") = [] := by
    simp [envExpand, expandGo, getShellName, envGet, isShellSpecialVar, isAlphaNum,
      lbrace, env7, List.takeWhile, List.lookup]
  rw [h1, h2]
  simp

theorem envGet_dollarFree (e : Environment) (h : ∀ kv ∈ e, '$' ∉ kv.2.toList)
    (name : String) : '$' ∉ (envGet e name "").toList := by
  induction e with
  | nil => simp [envGet, List.lookup]
  | cons kv rest ih =>
    obtain ⟨k, v⟩ := kv
    simp only [envGet, List.lookup]
    cases hk : name == k
    · have := ih (fun x hx => h x (List.mem_cons_of_mem _ hx))
      simpa [envGet] using this
    · simpa using h (k, v) (List.mem_cons_self _ _)

/-- C7 (amended): Environment.Expand is idempotent provided no value stored
in the Environment contains a dollar character (so one round of expansion
cannot create new references). -/
theorem c7_amended (e : Environment) (h : ∀ kv ∈ e, '$' ∉ kv.2.toList) (s : List Char) :
    envExpand e (envExpand e s) = envExpand e s :=
  expandGo_idem _ (fun name => envGet_dollarFree e h name) s

/-- Environment of the C7 witness. -/
def env7w : Environment := [("A", "hello")]

theorem c7_amended_witness :
    (∀ kv ∈ env7w, '$' ∉ kv.2.toList)
    ∧ envExpand env7w (envExpand env7w (String.toList "go $A now"))
        = envExpand env7w (String.toList "go $A now") :=
  ⟨by decide, c7_amended env7w (by decide) (String.toList "go $A now")⟩

/-! ### Child process information (systemProcess.Info, src/unnamed/part_030 lines 141-153) -/

/-- The OS process handle that exec.Cmd publishes after a successful Start. -/
structure OsProc where
  pid : Int
deriving DecidableEq, Repr

/-- The relevant state of an exec.Cmd: the Process handle (nil until Start
succeeds) and whether Wait has recorded termination (ProcessState set). -/
structure Cmd where
  process : Option OsProc
  finished : Bool
deriving DecidableEq, Repr

/-- The state of a systemProcess that Info depends on: the cmd field (nil
until Run assigns it) and the recorded start time. -/
structure SystemProcessState where
  cmd : Option Cmd
  startedAt : Int
deriving DecidableEq, Repr

/-- A systemProcess before Run was called: cmd is nil. -/
def initialProcState : SystemProcessState := ⟨none, 0⟩

/-- The state mutation performed by systemProcess.Run (src/unnamed/part_030,
lines 158-182): cmd is assigned, startedAt is recorded, and on Start
success the Process handle carries the OS pid; on Start failure the handle
stays nil. -/
def runStart (started : Option Int) (now : Int) : SystemProcessState :=
  { cmd := some ⟨started.map OsProc.mk, false⟩, startedAt := now }

/-- Wait completing: exec.Cmd records the ProcessState.  Nothing in the
source ever clears the cmd or Process fields afterwards. -/
def waitDone (p : SystemProcessState) : SystemProcessState :=
  { p with cmd := p.cmd.map (fun c => { c with finished := true }) }

/-- ProcessInfo's fields relevant here (src/unnamed/part_030, lines 28-33). -/
structure ProcessInfo where
  pid : Int
  uptime : Int
deriving DecidableEq, Repr

/-- systemProcess.Info (src/unnamed/part_030, lines 141-153): PID -1 when
cmd or cmd.Process is nil, otherwise the OS pid and time.Since(startedAt). -/
def Info (p : SystemProcessState) (now : Int) : ProcessInfo :=
  match p.cmd with
  | none => ⟨-1, 0⟩
  | some c =>
    match c.process with
    | none => ⟨-1, 0⟩
    | some pr => ⟨pr.pid, now - p.startedAt⟩

/-- Spec-side predicate following the claim's words: the child is currently
running when it was started successfully and its Wait has not completed. -/
def specCurrentlyRunning (p : SystemProcessState) : Bool :=
  match p.cmd with
  | none => false
  | some c => c.process.isSome && !c.finished

/-- Whether the child was ever started successfully (cmd and Process set). -/
def startedOK (p : SystemProcessState) : Bool :=
  match p.cmd with
  | none => false
  | some c => c.process.isSome

/-- A child that was started with pid 42 at time 5 and has already
terminated. -/
def proc9 : SystemProcessState := waitDone (runStart (some 42) 5)

/-- C9 counterexample: an already-terminated child is not currently
running, yet Info still returns the recorded PID 42 rather than -1 — the
code never clears cmd or cmd.Process on termination, and no destroy
operation exists. -/
theorem c9_counterexample :
    specCurrentlyRunning proc9 = false
    ∧ (Info proc9 100).pid = 42
    ∧ (42 : Int) ≠ -1 := by
  refine ⟨rfl, rfl, by decide⟩

/-- C9 (amended): Info returns PID -1 iff the child was never successfully
started (not-yet-started, or Start failed); for a started child — even one
that has already terminated — it returns the recorded OS PID together with
now minus the recorded start time.  The hypothesis states that OS process
identifiers are nonnegative. -/
theorem c9_amended (p : SystemProcessState) (now : Int)
    (hpid : ∀ c pr, p.cmd = some c → c.process = some pr → 0 ≤ pr.pid) :
    ((Info p now).pid = -1 ↔ startedOK p = false)
    ∧ (∀ c pr, p.cmd = some c → c.process = some pr →
        Info p now = ⟨pr.pid, now - p.startedAt⟩) := by
  constructor
  · match hc : p.cmd with
    | none => simp [Info, startedOK, hc]
    | some c =>
      match hpr : c.process with
      | none => simp [Info, startedOK, hc, hpr]
      | some pr =>
        have h0 := hpid c pr hc hpr
        simp only [Info, startedOK, hc, hpr, Option.isSome_some]
        constructor
        · intro hbad
          omega
        · intro hfalse
          exact absurd hfalse (by simp)
  · intro c pr hc hpr
    simp [Info, hc, hpr]

theorem proc9_pid_nonneg :
    ∀ (c : Cmd) (pr : OsProc), proc9.cmd = some c → c.process = some pr → 0 ≤ pr.pid := by
  intro c pr hc hpr
  injection hc with hc
  subst hc
  injection hpr with hpr
  subst hpr
  decide

theorem c9_amended_witness :
    (∀ c pr, proc9.cmd = some c → c.process = some pr → 0 ≤ pr.pid)
    ∧ (((Info proc9 100).pid = -1 ↔ startedOK proc9 = false)
      ∧ (∀ c pr, proc9.cmd = some c → c.process = some pr →
          Info proc9 100 = ⟨pr.pid, 100 - proc9.startedAt⟩)) :=
  ⟨proc9_pid_nonneg, c9_amended proc9 100 proc9_pid_nonneg⟩

/-! ### The TAIL command (Server.handleTailCommand, src/unnamed/part_034 lines 152-185) -/

/-- Writers are identified by number; the client connection is one of them. -/
abbrev Writer := Nat

/-- The Executor's per-process fan-outs: process name to the ordered writer
list of its multiWriter. -/
abbrev Outputs := List (String × List Writer)

/-- multiWriter.AddWriter applied to the named process's fan-out. -/
def addWriter (os : Outputs) (name : String) (w : Writer) : Outputs :=
  os.map (fun kv => if kv.1 == name then (kv.1, kv.2 ++ [w]) else kv)

/-- multiWriter.RemoveWriter applied to the named process's fan-out. -/
def removeWriter (os : Outputs) (name : String) (w : Writer) : Outputs :=
  os.map (fun kv => if kv.1 == name then (kv.1, kv.2.filter (fun x => x ≠ w)) else kv)

/-- The second message read from a TAIL client after the subscriptions are
installed: an EXIT command, some other command, or a read error. -/
inductive TailSecondMsg where
  | exitCmd
  | otherCmd (cmd : String)
  | readErr
deriving DecidableEq, Repr

/-- The add loop of handleTailCommand: for each requested name look the
fan-out up; on the first unknown name return immediately with the error —
the writers already added stay installed, because the deferred removal is
registered only after the whole loop — otherwise add the connection and
continue. -/
def tailAddLoop (os : Outputs) (conn : Writer) : List String → Outputs × Option String
  | [] => (os, none)
  | name :: names =>
    if (os.lookup name).isSome then
      tailAddLoop (addWriter os name conn) conn names
    else
      (os, some name)

/-- Server.handleTailCommand (src/unnamed/part_034, lines 152-185): the
resulting fan-out state and whether an error was reported.  No arguments is
an error; an unknown name returns its error with the partial additions left
in place; on a fully valid list the deferred removal runs after the second
message is read, whatever that read produced. -/
def handleTailCommand (os : Outputs) (conn : Writer) (args : List String)
    (second : TailSecondMsg) : Outputs × Bool :=
  if args = [] then (os, true)
  else
    let r := tailAddLoop os conn args
    match r.2 with
    | some _ => (r.1, true)
    | none =>
      let cleaned := args.foldl (fun acc name => removeWriter acc name conn) r.1
      match second with
      | .exitCmd => (cleaned, false)
      | .otherCmd _ => (cleaned, true)
      | .readErr => (cleaned, true)

/-- The fan-outs of the C4 counterexample: two processes, each with its
sink as the only writer. -/
def outputs4 : Outputs := [("a", [0]), ("b", [1])]

/-- C4 counterexample: TAIL with arguments [a, zzz] where zzz is unknown:
the handler reports the error, but the fan-out of the valid name a — which
precedes the unknown name — still retains the client connection (writer 9)
after the request is handled, contradicting the claim that no fan-out
retains the connection. -/
theorem c4_counterexample :
    handleTailCommand outputs4 9 ["a", "zzz"] .exitCmd
      = ([("a", [0, 9]), ("b", [1])], true)
    ∧ (9 : Writer) ∈ ((([("a", [0, 9]), ("b", [1])] : Outputs).lookup "a").getD []) := by
  refine ⟨rfl, by decide⟩

theorem addWriter_lookup_isSome (os : Outputs) (n : String) (w : Writer) (m : String) :
    ((addWriter os n w).lookup m).isSome = (os.lookup m).isSome := by
  induction os with
  | nil => rfl
  | cons kv os ih =>
    obtain ⟨k, ws⟩ := kv
    have hstep : addWriter ((k, ws) :: os) n w
        = (if k == n then (k, ws ++ [w]) else (k, ws)) :: addWriter os n w := by
      simp only [addWriter, List.map_cons]
    rw [hstep]
    cases hk : k == n
    · rw [if_neg (by simp [hk])]
      cases hmk : m == k <;> simp [List.lookup, hmk, ih]
    · rw [if_pos rfl]
      cases hmk : m == k <;> simp [List.lookup, hmk, ih]

theorem tailAddLoop_unknown (conn : Writer) (valid : List String) :
    ∀ (os : Outputs) (unknown : String) (rest : List String),
      (∀ name ∈ valid, (os.lookup name).isSome = true) →
      os.lookup unknown = none →
      tailAddLoop os conn (valid ++ unknown :: rest)
        = (valid.foldl (fun acc n => addWriter acc n conn) os, some unknown) := by
  induction valid with
  | nil =>
    intro os unknown rest h1 h2
    simp only [List.nil_append, tailAddLoop]
    rw [if_neg (by simp [h2])]
    simp
  | cons v valid ih =>
    intro os unknown rest h1 h2
    simp only [List.cons_append, tailAddLoop]
    rw [if_pos (h1 v (by simp))]
    simp only [List.append_eq]
    have h3 := addWriter_lookup_isSome os v conn unknown
    rw [h2] at h3
    have h2' : (addWriter os v conn).lookup unknown = none := by
      rcases hx : (addWriter os v conn).lookup unknown with _ | y
      · rfl
      · rw [hx] at h3
        simp at h3
    rw [ih (addWriter os v conn) unknown rest
      (fun name hn => by rw [addWriter_lookup_isSome]; exact h1 name (List.mem_cons_of_mem _ hn))
      h2']
    simp [List.foldl]

/-- C4 (amended): on a TAIL request whose argument list contains an unknown
name, the server stops at the first unknown name, reports the error (the
connection is then closed by handleConnection's deferred cancel), and
installs no subscription for the unknown name or the names after it; but
the connection HAS been added to the fan-outs of the valid names preceding
the first unknown name, and those additions are not rolled back, because
the deferred removal is registered only after the loop completes. -/
theorem c4_amended (os : Outputs) (conn : Writer) (valid : List String)
    (unknown : String) (rest : List String) (second : TailSecondMsg)
    (h1 : ∀ name ∈ valid, (os.lookup name).isSome = true)
    (h2 : os.lookup unknown = none) :
    handleTailCommand os conn (valid ++ unknown :: rest) second
      = (valid.foldl (fun acc n => addWriter acc n conn) os, true) := by
  rw [handleTailCommand]
  rw [if_neg (by simp)]
  rw [tailAddLoop_unknown conn valid os unknown rest h1 h2]

theorem c4_amended_witness :
    (∀ name ∈ ["a"], (outputs4.lookup name).isSome = true)
    ∧ outputs4.lookup "zzz" = none
    ∧ handleTailCommand outputs4 9 (["a"] ++ "zzz" :: []) .exitCmd
        = (["a"].foldl (fun acc n => addWriter acc n 9) outputs4, true) :=
  ⟨by decide, by decide,
    c4_amended outputs4 9 ["a"] "zzz" [] .exitCmd (by decide) (by decide)⟩

end Prox
